import Mathlib

/-!
Verification of the chapter-to-slides conversion pipeline
(`chapter_to_slides.py`). Documents are modelled as `List Char`; every
operation below is a direct transcription of the corresponding Python
function. The external renderer and the presentation writer are
out-of-scope collaborators and are modelled as parameters.
-/

/-- Characters treated as whitespace by Python's `str.strip()` (ASCII range). -/
def isSpc (c : Char) : Bool :=
  c = ' ' || c = '\t' || c = '\n' || c = '\r' || c = Char.ofNat 11 || c = Char.ofNat 12

/-- Right-hand part of Python `str.strip()`: drop trailing whitespace. -/
def rstripWs (l : List Char) : List Char :=
  (l.reverse.dropWhile isSpc).reverse

/-- Python `str.strip()` with no argument: drop leading and trailing whitespace. -/
def pyStrip (l : List Char) : List Char :=
  rstripWs (l.dropWhile isSpc)

/-- Python slice `doc[a:b]` (for `a ≤ b`; degenerate slices yield `[]`). -/
def pySlice (doc : List Char) (a b : Nat) : List Char :=
  (doc.drop a).take (b - a)

/-- Python `s.split('\n')`: split into lines, keeping empty pieces. -/
def splitOnNl : List Char → List (List Char)
  | [] => [[]]
  | c :: rest =>
    if c = '\n' then [] :: splitOnNl rest
    else
      match splitOnNl rest with
      | [] => [[c]]
      | l :: ls => (c :: l) :: ls

/-- Inverse of `splitOnNl`: join lines with newline separators. -/
def joinNl : List (List Char) → List Char
  | [] => []
  | [l] => l
  | l :: ls => l ++ '\n' :: joinNl ls

/-- A line matched by the section regex `^## (.+?)$` in MULTILINE mode:
it starts with `##` followed by a space and at least one further character. -/
def isH2Line (l : List Char) : Bool :=
  l.take 3 = ['#', '#', ' '] && decide (3 < l.length)

/-- All `^## (.+?)$` matches, as (absolute offset of the line start, full line),
obtained by walking the line list while tracking absolute offsets. -/
def h2Aux : List (List Char) → Nat → List (Nat × List Char)
  | [], _ => []
  | l :: rest, pos =>
    (if isH2Line l then [(pos, l)] else []) ++ h2Aux rest (pos + l.length + 1)

/-- The `re.finditer(r'^## (.+?)$', content, re.MULTILINE)` matches of a document. -/
def h2Matches (doc : List Char) : List (Nat × List Char) :=
  h2Aux (splitOnNl doc) 0

/-- A section as produced by `ChapterParser.extract_sections`: title and body text.
(The source also attaches a subsection list, which no modelled operation consumes.) -/
structure Section where
  title : List Char
  content : List Char
  deriving DecidableEq, Repr

/-- Body bounds used by `extract_sections`: for each `##` match, the body runs
from the end of the heading line to the start of the next `##` match
(or to the end of the document for the last one). -/
def bodyBoundsAux : List (Nat × List Char) → Nat → List (Nat × Nat)
  | [], _ => []
  | (p, l) :: rest, len =>
    (p + l.length, match rest with | [] => len | (q, _) :: _ => q) :: bodyBoundsAux rest len

/-- Body bounds of every section of a document. -/
def bodyBounds (doc : List Char) : List (Nat × Nat) :=
  bodyBoundsAux (h2Matches doc) doc.length

/-- `ChapterParser.extract_sections`: one `Section` per `##` heading, with the
stripped heading text as title and the stripped inter-heading span as body. -/
def sectionsAux (doc : List Char) : List (Nat × List Char) → Nat → List Section
  | [], _ => []
  | (p, l) :: rest, len =>
    { title := pyStrip (l.drop 3)
      content := pyStrip (pySlice doc (p + l.length)
        (match rest with | [] => len | (q, _) :: _ => q)) } :: sectionsAux doc rest len

/-- `ChapterParser.extract_sections` on a whole document. -/
def extractSections (doc : List Char) : List Section :=
  sectionsAux doc (h2Matches doc) doc.length

/-- Reassembly of a document from its `##` matches: the preamble before the
first heading, then alternately each heading line's span and the raw body span
that `extract_sections` slices for it (before stripping). Used to state the
partition property. -/
def reconAux (doc : List Char) : List (Nat × List Char) → Nat → List Char
  | [], q => doc.drop q
  | (p, l) :: rest, q =>
    pySlice doc q p ++ pySlice doc p (p + l.length) ++ reconAux doc rest (p + l.length)

/-- A line matched by `^# ` in the title regex `^# (.+?)(?:\x7b|$)`:
one `#`, a space, and at least one further character. -/
def isTitleLine (l : List Char) : Bool :=
  l.take 2 = ['#', ' '] && decide (2 < l.length)

/-- The capture group of `(.+?)(?:\x7b|$)` on the nonempty rest of a title line:
at least one character, then up to the next literal `\x7b` or the end of the line. -/
def titleGroup : List Char → List Char
  | [] => []
  | c :: t => c :: t.takeWhile (fun x => x ≠ '\x7b')

/-- Scan the lines for the first `^# ` match; fall back to `"Untitled"`. -/
def titleOfLines : List (List Char) → List Char
  | [] => "Untitled".data
  | l :: rest => if isTitleLine l then pyStrip (titleGroup (l.drop 2)) else titleOfLines rest

/-- `ChapterParser.extract_title`. -/
def extractTitle (doc : List Char) : List Char :=
  titleOfLines (splitOnNl doc)

/-- Kind of an extracted equation (`'display'` or `'inline'` in the source). -/
inductive EqKind where
  | display
  | inline
  deriving DecidableEq, Repr

/-- An equation record as built by `ChapterParser.extract_equations`:
kind, delimiter-stripped LaTeX, and source offset (`position`). -/
structure Eqn where
  kind : EqKind
  latex : List Char
  position : Nat
  deriving DecidableEq, Repr

/-- Matches of the display pattern `\$\$([^$]+?)\$\$`, as (offset, raw group).
The scan advances one character on failure and resumes after each match,
mirroring `re.finditer`; the fuel only bounds the recursion and one unit is
spent per step, so `length + 1` units never run out. -/
def displayScanAux : Nat → Nat → List Char → List (Nat × List Char)
  | 0, _, _ => []
  | _ + 1, _, [] => []
  | fuel + 1, pos, c :: rest =>
    if c = '$' && rest.take 1 = ['$'] then
      let rest2 := rest.drop 1
      let body := rest2.takeWhile (fun x => x ≠ '$')
      let rem := rest2.dropWhile (fun x => x ≠ '$')
      if body ≠ [] && rem.take 2 = ['$', '$'] then
        (pos, body) :: displayScanAux fuel (pos + body.length + 4) (rem.drop 2)
      else displayScanAux fuel (pos + 1) rest
    else displayScanAux fuel (pos + 1) rest

/-- Matches of the inline pattern `(?<!\$)\$(?!\$)([^$\n]+?)\$(?!\$)`, as
(offset, raw group). `prev` is the character before the scan position, used
for the look-behind; the group may not contain `$` or a newline, and the
closing `$` must not be followed by another `$`. -/
def inlineScanAux : Nat → Option Char → Nat → List Char → List (Nat × List Char)
  | 0, _, _, _ => []
  | _ + 1, _, _, [] => []
  | fuel + 1, prev, pos, c :: rest =>
    if c = '$' && prev ≠ some '$' && rest.take 1 ≠ ['$'] then
      let body := rest.takeWhile (fun x => x ≠ '$' && x ≠ '\n')
      let rem := rest.dropWhile (fun x => x ≠ '$' && x ≠ '\n')
      if body ≠ [] && rem.take 1 = ['$'] && (rem.drop 1).take 1 ≠ ['$'] then
        (pos, body) :: inlineScanAux fuel (some '$') (pos + body.length + 2) (rem.drop 1)
      else inlineScanAux fuel (some c) (pos + 1) rest
    else inlineScanAux fuel (some c) (pos + 1) rest

/-- `ChapterParser.extract_equations`: run the display pass, then the inline
pass, strip each captured group, and sort the records by `position`
(Python's stable `list.sort(key=...)`, modelled by insertion sort). -/
def extractEquations (doc : List Char) : List Eqn :=
  List.insertionSort (fun a b => a.position ≤ b.position)
    (((displayScanAux (doc.length + 1) 0 doc).map
        (fun pb => { kind := EqKind.display, latex := pyStrip pb.2, position := pb.1 })) ++
     ((inlineScanAux (doc.length + 1) none 0 doc).map
        (fun pb => { kind := EqKind.inline, latex := pyStrip pb.2, position := pb.1 })))

/-- A rendered-equation artifact path (modelled as its text). -/
abbrev ImgPath := List Char

/-- Digits of a natural number, most significant first (fuelled division loop). -/
def natDigitsAux : Nat → Nat → List Char
  | 0, _ => []
  | fuel + 1, n =>
    if n < 10 then [Nat.digitChar n]
    else natDigitsAux fuel (n / 10) ++ [Nat.digitChar (n % 10)]

/-- Decimal digits of a natural number. -/
def natDigits (n : Nat) : List Char :=
  natDigitsAux (n + 1) n

/-- Python `f"{i:03d}"`: left-pad the decimal digits with zeros to width 3. -/
def pad3 (n : Nat) : List Char :=
  List.replicate (3 - (natDigits n).length) '0' ++ natDigits n

/-- The deterministic filename `EquationRenderer.render_all` derives for index `i`. -/
def filenameFor (i : Nat) : List Char :=
  "equation_".data ++ pad3 i ++ ".png".data

/-- Type of the external rendering call (`EquationRenderer.render_equation`):
given LaTeX, filename and mode it either yields an artifact path or fails
(`None` after the swallowed exception). -/
abbrev Renderer := List Char → List Char → EqKind → Option ImgPath

/-- `EquationRenderer.render_all`, walking the equations with their indices:
failed renders contribute no entry to the index-to-path mapping. -/
def renderAllAux (render : Renderer) : List Eqn → Nat → List (Nat × ImgPath)
  | [], _ => []
  | e :: rest, i =>
    (match render e.latex (filenameFor i) e.kind with
     | some p => [(i, p)]
     | none => []) ++ renderAllAux render rest (i + 1)

/-- `EquationRenderer.render_all` on a whole equation list. -/
def renderAll (render : Renderer) (eqs : List Eqn) : List (Nat × ImgPath) :=
  renderAllAux render eqs 0

/-- Whether the render of the equation at absolute index `i` succeeds, where the
remaining equation list `eqs` starts at absolute index `j`. -/
def okIdxFrom (render : Renderer) (eqs : List Eqn) (j i : Nat) : Bool :=
  match eqs.get? (i - j) with
  | some e => (render e.latex (filenameFor i) e.kind).isSome
  | none => false

/-- Whether the render of the equation at index `i` succeeds (its index gets a key). -/
def okIdx (render : Renderer) (eqs : List Eqn) (i : Nat) : Bool :=
  okIdxFrom render eqs 0 i

/-- Dictionary lookup `equation_images[i]` on the index-to-path mapping;
`none` models a `KeyError`. -/
def lookupImg (m : List (Nat × ImgPath)) (i : Nat) : Option ImgPath :=
  (m.find? (fun kv => kv.1 = i)).map Prod.snd

/-- Characters removed by the source's `line.lstrip('-*0123456789. ')`. -/
def isBulletChar (c : Char) : Bool :=
  c ∈ ['-', '*', '0', '1', '2', '3', '4', '5', '6', '7', '8', '9', '.', ' ']

/-- The source's `line.startswith(('-', '*', '1.', '2.', '3.', '4.', '5.'))`. -/
def isBulletStart (l : List Char) : Bool :=
  l.take 1 = ['-'] || l.take 1 = ['*'] ||
  l.take 2 = ['1', '.'] || l.take 2 = ['2', '.'] || l.take 2 = ['3', '.'] ||
  l.take 2 = ['4', '.'] || l.take 2 = ['5', '.']

/-- One candidate line's bullet text: the whole leading run of
dashes/asterisks/digits/dots/spaces is removed (Python `lstrip` with a set). -/
def bulletText (l : List Char) : List Char :=
  l.dropWhile isBulletChar

/-- The bullet-extraction loop of `convert_chapter_to_slides` over split lines. -/
def bulletsAux : List (List Char) → List (List Char)
  | [] => []
  | line :: rest =>
    let t := pyStrip line
    (if isBulletStart t then [bulletText t] else []) ++ bulletsAux rest

/-- Bullet derivation for one section body. -/
def deriveBullets (content : List Char) : List (List Char) :=
  bulletsAux (splitOnNl content)

/-- Modelled from the spec (§4.4b as the claim words it): only the matched
prefix (`-`, `*`, or the two-character ordinal `1.`–`5.`) is stripped from a
candidate bullet line. Used only to compare against the source's behaviour. -/
def bulletTextOnlyMatched (l : List Char) : List Char :=
  if l.take 2 = ['1', '.'] || l.take 2 = ['2', '.'] || l.take 2 = ['3', '.'] ||
     l.take 2 = ['4', '.'] || l.take 2 = ['5', '.'] then l.drop 2 else l.drop 1

/-- Modelled from the spec: bullet derivation where only the matched prefix is
stripped, the candidate test being the one the source and spec share. -/
def bulletsOnlyMatchedAux : List (List Char) → List (List Char)
  | [] => []
  | line :: rest =>
    let t := pyStrip line
    (if isBulletStart t then [bulletTextOnlyMatched t] else []) ++ bulletsOnlyMatchedAux rest

/-- Modelled from the spec: `deriveBullets` with only-matched-prefix stripping. -/
def deriveBulletsOnlyMatched (content : List Char) : List (List Char) :=
  bulletsOnlyMatchedAux (splitOnNl content)

/-- Python `hay.find(needle)`: offset of the first occurrence, `-1` if absent. -/
def pyFindAux (needle : List Char) : List Char → Nat → Option Nat
  | [], i => if needle = [] then some i else none
  | c :: t, i => if needle.isPrefixOf (c :: t) then some i else pyFindAux needle t (i + 1)

/-- Python `hay.find(needle)` as an `Int` (`-1` on failure, as in the source). -/
def pyFind (hay needle : List Char) : Int :=
  match pyFindAux needle hay 0 with
  | some i => (i : Int)
  | none => -1

/-- Whether an equation passes the section-membership test
`eq['position'] > parser.content.find(section_start)`. -/
def passesLoc (located : Int) (e : Eqn) : Bool :=
  decide (located < (e.position : Int))

/-- The per-section equation-association loop of `convert_chapter_to_slides`:
for each equation whose offset beats `located`, consume the image at the shared
cursor while the cursor is below the mapping's size; a missing key under the
guard is a `KeyError`, modelled as `Except.error`. Collection stops at 3. -/
def collectLoopE (located : Int) (m : List (Nat × ImgPath)) :
    List Eqn → Nat → List ImgPath → Except Unit (List ImgPath × Nat)
  | [], cursor, acc => .ok (acc, cursor)
  | e :: rest, cursor, acc =>
    if passesLoc located e then
      if cursor < m.length then
        match lookupImg m cursor with
        | none => .error ()
        | some p =>
          let acc' := acc ++ [p]
          if 3 ≤ acc'.length then .ok (acc', cursor + 1)
          else collectLoopE located m rest (cursor + 1) acc'
      else
        if 3 ≤ acc.length then .ok (acc, cursor)
        else collectLoopE located m rest cursor acc
    else collectLoopE located m rest cursor acc

/-- A slide descriptor handed to the presentation writer. -/
inductive Slide where
  | titleSlide : List Char → Slide
  | sectionHeader : List Char → Slide
  | contentSlide : List Char → List (List Char) → List ImgPath → Slide
  deriving DecidableEq, Repr

/-- The section loop of `convert_chapter_to_slides`: per section a header
slide, then (if bullets or equations were found) a content slide with the
first 5 bullets and first 2 collected images; the equation cursor is shared
across sections and a `KeyError` aborts the whole run. -/
def sectionLoop (doc : List Char) (eqs : List Eqn) (m : List (Nat × ImgPath)) :
    List Section → Nat → Except Unit (List Slide)
  | [], _ => .ok []
  | s :: rest, cursor =>
    let bullets := deriveBullets s.content
    let located := pyFind doc (s.content.take 100)
    match collectLoopE located m eqs cursor [] with
    | .error e => .error e
    | .ok (se, cursor') =>
      match sectionLoop doc eqs m rest cursor' with
      | .error e => .error e
      | .ok slides =>
        .ok ([Slide.sectionHeader s.title] ++
          (if bullets ≠ [] || se ≠ [] then
            [Slide.contentSlide s.title (bullets.take 5) (se.take 2)] else []) ++ slides)

/-- `convert_chapter_to_slides` restricted to its slide-planning core:
parse the document, render the equations through the given renderer, and emit
the ordered slide-descriptor sequence (or abort on a `KeyError`). -/
def planSlides (render : Renderer) (doc : List Char) : Except Unit (List Slide) :=
  let sections := extractSections doc
  let equations := extractEquations doc
  let images := renderAll render equations
  match sectionLoop doc equations images sections 0 with
  | .error e => .error e
  | .ok slides => .ok (Slide.titleSlide (extractTitle doc) :: slides)

/-- A renderer that always succeeds, returning the filename as the path. -/
def okRender : Renderer := fun _ fname _ => some fname

/-- A renderer that fails exactly on the LaTeX body `b`. -/
def renderFailB : Renderer := fun latex fname _ => if latex = "b".data then none else some fname

/-- Five equations whose third (index 2) has the failing body `b`. -/
def eqsFive : List Eqn :=
  [{ kind := EqKind.inline, latex := "p".data, position := 0 },
   { kind := EqKind.inline, latex := "q".data, position := 1 },
   { kind := EqKind.inline, latex := "b".data, position := 2 },
   { kind := EqKind.inline, latex := "r".data, position := 3 },
   { kind := EqKind.inline, latex := "s".data, position := 4 }]

instance : IsTotal Eqn fun a b => a.position ≤ b.position :=
  ⟨fun a b => Nat.le_total a.position b.position⟩

instance : IsTrans Eqn fun a b => a.position ≤ b.position :=
  ⟨fun _ _ _ => Nat.le_trans⟩


example : extractEquations "$x+1$ then $$y=2$$".data =
    [{ kind := EqKind.inline, latex := "x+1".data, position := 0 },
     { kind := EqKind.display, latex := "y=2".data, position := 11 }] := by rfl

example : extractSections "## A\n$x$ text\n## B\n$y$".data =
    [{ title := "A".data, content := "$x$ text".data },
     { title := "B".data, content := "$y$".data }] := by rfl

example : extractTitle "junk\n# Chapter 1 \x7b#ch1\x7d\nmore".data = "Chapter 1".data := by rfl

example : extractTitle "## only\nsections".data = "Untitled".data := by rfl

example : deriveBullets "- a\n- b\nsome text\n* c".data = ["a".data, "b".data, "c".data] := by rfl

example : filenameFor 0 = "equation_000.png".data := by rfl

example : planSlides okRender "## A\n$x$ text\n## B\n$y$".data =
    .ok [Slide.titleSlide "Untitled".data,
         Slide.sectionHeader "A".data,
         Slide.contentSlide "A".data [] ["equation_000.png".data],
         Slide.sectionHeader "B".data] := by rfl

example : planSlides (fun latex fname _ => if latex = "x".data then none else some fname)
    "## A\ntext here\n$x$ $y$".data = .error () := by rfl

example : pyFind "## A\n$x$ text\n## B\n$y$".data "$x$ text".data = 5 := by rfl

theorem dropWhile_head?_not {p : Char → Bool} : ∀ {l : List Char} {c : Char},
    (List.dropWhile p l).head? = some c → p c = false := by
  intro l
  induction l with
  | nil => intro c h; cases h
  | cons x t ih =>
    intro c h
    rw [List.dropWhile_cons] at h
    by_cases hp : p x = true
    · rw [if_pos hp] at h; exact ih h
    · rw [if_neg hp] at h
      simp only [List.head?_cons, Option.some.injEq] at h
      subst h
      simpa using hp

theorem pyStrip_getLast?_not {l : List Char} {c : Char}
    (h : (pyStrip l).getLast? = some c) : isSpc c = false := by
  unfold pyStrip rstripWs at h
  rw [List.getLast?_reverse] at h
  exact dropWhile_head?_not h

theorem pyStrip_head?_not {l : List Char} {c : Char}
    (h : (pyStrip l).head? = some c) : isSpc c = false := by
  unfold pyStrip rstripWs at h
  obtain ⟨t, ht⟩ := List.dropWhile_suffix (l := (l.dropWhile isSpc).reverse) isSpc
  cases hd : (List.dropWhile isSpc (l.dropWhile isSpc).reverse).reverse with
  | nil => rw [hd] at h; cases h
  | cons x xs =>
    rw [hd] at h
    simp only [List.head?_cons, Option.some.injEq] at h
    subst h
    have haeq : List.dropWhile isSpc l = x :: (xs ++ t.reverse) := by
      have h2 : List.dropWhile isSpc l =
          (t ++ List.dropWhile isSpc (l.dropWhile isSpc).reverse).reverse := by
        rw [ht]; simp
      rw [h2, List.reverse_append, hd]
      simp
    have hx : (List.dropWhile isSpc l).head? = some x := by rw [haeq]; rfl
    exact dropWhile_head?_not hx

theorem pyStrip_mem {l : List Char} {c : Char} (h : c ∈ pyStrip l) : c ∈ l := by
  unfold pyStrip rstripWs at h
  rw [List.mem_reverse] at h
  have h1 := (List.dropWhile_sublist (l := (l.dropWhile isSpc).reverse) isSpc).mem h
  rw [List.mem_reverse] at h1
  exact (List.dropWhile_sublist isSpc).mem h1

theorem titleOfLines_nomatch : ∀ ls : List (List Char),
    (∀ l ∈ ls, isTitleLine l = false) → titleOfLines ls = "Untitled".data := by
  intro ls
  induction ls with
  | nil => intro _; rfl
  | cons l rest ih =>
    intro h
    have hl := h l (List.mem_cons_self l rest)
    simp only [titleOfLines, hl, Bool.false_eq_true, if_false]
    exact ih fun x hx => h x (List.mem_cons_of_mem l hx)

theorem titleOfLines_first : ∀ (pre : List (List Char)) (post : List (List Char)) (t : List Char),
    (∀ l ∈ pre, isTitleLine l = false) → t ≠ [] →
    titleOfLines (pre ++ ('#' :: ' ' :: t) :: post) = pyStrip (titleGroup t) := by
  intro pre
  induction pre with
  | nil =>
    intro post t _ ht
    have htl : isTitleLine ('#' :: ' ' :: t) = true := by
      unfold isTitleLine
      cases t with
      | nil => exact absurd rfl ht
      | cons a b => simp [List.take]
    simp [titleOfLines, htl, List.drop]
  | cons l rest ih =>
    intro post t h ht
    have hl := h l (List.mem_cons_self l rest)
    simp only [List.cons_append, titleOfLines, hl, Bool.false_eq_true, if_false]
    exact ih post t (fun x hx => h x (List.mem_cons_of_mem l hx)) ht

/-- C8: `extract_title` returns the text of the first `# `-headed line, cut at
the first brace and trimmed, and falls back to `"Untitled"` when no such line
exists; on the title line `# Chapter 1 {#ch1}` it yields exactly `Chapter 1`. -/
theorem title_extraction :
    (∀ doc : List Char, (∀ l ∈ splitOnNl doc, isTitleLine l = false) →
      extractTitle doc = "Untitled".data) ∧
    (∀ (pre post : List (List Char)) (t : List Char),
      (∀ l ∈ pre, isTitleLine l = false) → t ≠ [] →
      titleOfLines (pre ++ ('#' :: ' ' :: t) :: post) = pyStrip (titleGroup t)) ∧
    extractTitle "junk\n# Chapter 1 \x7b#ch1\x7d\nmore".data = "Chapter 1".data := by
  refine ⟨fun doc h => titleOfLines_nomatch _ h, titleOfLines_first, by rfl⟩

/-- Witness for C8: the theorem applied to a titleless document and to a
concrete decomposed document with a title line. -/
theorem title_extraction_witness :
    extractTitle "## only\nsections".data = "Untitled".data ∧
    titleOfLines (["junk".data] ++ ('#' :: ' ' :: "T \x7bx\x7d".data) :: ["more".data]) =
      pyStrip (titleGroup "T \x7bx\x7d".data) := by
  exact ⟨title_extraction.1 _ (by decide),
         title_extraction.2.1 ["junk".data] ["more".data] "T \x7bx\x7d".data (by decide) (by decide)⟩

theorem bulletsAux_filter_map : ∀ ls : List (List Char),
    bulletsAux ls = ((ls.map pyStrip).filter isBulletStart).map bulletText := by
  intro ls
  induction ls with
  | nil => rfl
  | cons l rest ih =>
    simp only [bulletsAux, List.map_cons, List.filter_cons]
    cases hb : isBulletStart (pyStrip l) with
    | true => simp [hb, ih]
    | false => simp [hb, ih]

/-- C6 (amended): a line is a candidate bullet exactly when its trimmed form
starts with `-`, `*`, or `1.`–`5.`; the whole leading run of
dashes/asterisks/digits/dots/spaces is stripped (not only the matched prefix);
bullets preserve line order; the example body yields `["a", "b", "c"]`. -/
theorem bullets_derivation :
    (∀ body : List Char, deriveBullets body =
      (((splitOnNl body).map pyStrip).filter isBulletStart).map bulletText) ∧
    (∀ (body b : List Char), b ∈ deriveBullets body →
      ∀ c, b.head? = some c → isBulletChar c = false) ∧
    deriveBullets "- a\n- b\nsome text\n* c".data = ["a".data, "b".data, "c".data] := by
  refine ⟨fun body => bulletsAux_filter_map _, ?_, by rfl⟩
  intro body b hb c hc
  have hb' : b ∈ (((splitOnNl body).map pyStrip).filter isBulletStart).map bulletText := by
    rw [← bulletsAux_filter_map]; exact hb
  obtain ⟨t, _, hbt⟩ := List.mem_map.mp hb'
  subst hbt
  exact dropWhile_head?_not hc

/-- Witness for C6's theorem: applied to the concrete body `- x`. -/
theorem bullets_derivation_witness : isBulletChar 'x' = false := by
  exact bullets_derivation.2.1 "- x".data "x".data (by decide) 'x' (by decide)

/-- C6 (counterexample): on the body `- 2008 crisis` the source strips the
whole leading run and yields `["crisis"]`, while stripping only the matched
prefix, as the claim states, would yield `[" 2008 crisis"]`. -/
theorem bullets_strip_counterexample :
    deriveBullets "- 2008 crisis".data = ["crisis".data] ∧
    deriveBulletsOnlyMatched "- 2008 crisis".data = [" 2008 crisis".data] ∧
    deriveBullets "- 2008 crisis".data ≠ deriveBulletsOnlyMatched "- 2008 crisis".data := by
  refine ⟨by rfl, by rfl, by decide⟩

/-- C7: `extract_equations` returns records sorted by source offset (offsets
non-decreasing), display and inline interleaved by true document position, and
on `$x+1$ … $$y=2$$` yields the inline record before the display record with
the delimiters stripped. -/
theorem equations_sorted_interleaved :
    (∀ doc : List Char,
      List.Sorted (fun a b => a.position ≤ b.position) (extractEquations doc)) ∧
    extractEquations "$x+1$ then $$y=2$$".data =
      [{ kind := EqKind.inline, latex := "x+1".data, position := 0 },
       { kind := EqKind.display, latex := "y=2".data, position := 11 }] := by
  exact ⟨fun doc => List.sorted_insertionSort _ _, by rfl⟩

theorem displayScanAux_noDollar : ∀ (fuel pos : Nat) (s : List Char) (p : Nat) (b : List Char),
    (p, b) ∈ displayScanAux fuel pos s → ∀ c ∈ b, c ≠ '$' := by
  intro fuel
  induction fuel with
  | zero => intro pos s p b h; cases h
  | succ n ih =>
    intro pos s p b h
    cases s with
    | nil => cases h
    | cons x rest =>
      simp only [displayScanAux] at h
      split at h
      · split at h
        · rcases List.mem_cons.mp h with heq | hmem
          · rw [Prod.mk.injEq] at heq
            obtain ⟨_, hb⟩ := heq
            subst hb
            intro c hc
            have := List.mem_takeWhile_imp hc
            simpa using this
          · exact ih _ _ _ _ hmem
        · exact ih _ _ _ _ h
      · exact ih _ _ _ _ h

theorem inlineScanAux_pred : ∀ (fuel : Nat) (prev : Option Char) (pos : Nat) (s : List Char)
    (p : Nat) (b : List Char), (p, b) ∈ inlineScanAux fuel prev pos s →
    ∀ c ∈ b, c ≠ '$' ∧ c ≠ '\n' := by
  intro fuel
  induction fuel with
  | zero => intro prev pos s p b h; cases h
  | succ n ih =>
    intro prev pos s p b h
    cases s with
    | nil => cases h
    | cons x rest =>
      simp only [inlineScanAux] at h
      split at h
      · split at h
        · rcases List.mem_cons.mp h with heq | hmem
          · rw [Prod.mk.injEq] at heq
            obtain ⟨_, hb⟩ := heq
            subst hb
            intro c hc
            have := List.mem_takeWhile_imp hc
            simp only [Bool.and_eq_true, decide_eq_true_eq] at this
            exact this
          · exact ih _ _ _ _ _ hmem
        · exact ih _ _ _ _ _ h
      · exact ih _ _ _ _ _ h

/-- C10: every extracted equation's LaTeX body contains no dollar sign and is
whitespace-trimmed at both ends, and inline bodies contain no newline. -/
theorem equation_latex_invariants :
    ∀ doc : List Char, ∀ e ∈ extractEquations doc,
      (∀ c ∈ e.latex, c ≠ '$') ∧
      (∀ c, e.latex.head? = some c → isSpc c = false) ∧
      (∀ c, e.latex.getLast? = some c → isSpc c = false) ∧
      (e.kind = EqKind.inline → ∀ c ∈ e.latex, c ≠ '\n') := by
  intro doc e he
  rw [extractEquations, List.mem_insertionSort] at he
  rcases List.mem_append.mp he with hd | hi
  · obtain ⟨pb, hpb, rfl⟩ := List.mem_map.mp hd
    refine ⟨?_, fun c hc => pyStrip_head?_not hc, fun c hc => pyStrip_getLast?_not hc, ?_⟩
    · intro c hc
      exact displayScanAux_noDollar _ _ _ _ _ hpb c (pyStrip_mem hc)
    · intro hk; cases hk
  · obtain ⟨pb, hpb, rfl⟩ := List.mem_map.mp hi
    have hprop := inlineScanAux_pred _ _ _ _ _ _ hpb
    exact ⟨fun c hc => (hprop c (pyStrip_mem hc)).1,
           fun c hc => pyStrip_head?_not hc,
           fun c hc => pyStrip_getLast?_not hc,
           fun _ c hc => (hprop c (pyStrip_mem hc)).2⟩

/-- Witness for C10: the theorem applied to `$x+1$ then $$y=2$$` and its
inline record, instantiated at the character `x`. -/
theorem equation_latex_invariants_witness : ('x' : Char) ≠ '$' := by
  exact (equation_latex_invariants "$x+1$ then $$y=2$$".data
    { kind := EqKind.inline, latex := "x+1".data, position := 0 } (by decide)).1 'x' (by decide)

theorem renderAllAux_mem (render : Renderer) : ∀ (eqs : List Eqn) (j i : Nat) (p : ImgPath),
    (i, p) ∈ renderAllAux render eqs j ↔
      j ≤ i ∧ ∃ e, eqs.get? (i - j) = some e ∧ render e.latex (filenameFor i) e.kind = some p := by
  intro eqs
  induction eqs with
  | nil => intro j i p; simp [renderAllAux]
  | cons e rest ih =>
    intro j i p
    simp only [renderAllAux, List.mem_append]
    constructor
    · intro h
      rcases h with h | h
      · cases hr : render e.latex (filenameFor j) e.kind with
        | none => rw [hr] at h; cases h
        | some q =>
          rw [hr] at h
          rw [List.mem_singleton, Prod.mk.injEq] at h
          obtain ⟨rfl, rfl⟩ := h
          exact ⟨Nat.le_refl i, e, by simp [Nat.sub_self], hr⟩
      · obtain ⟨hj, e', hget, hr⟩ := (ih (j + 1) i p).mp h
        refine ⟨by omega, e', ?_, hr⟩
        have hij : i - j = (i - (j + 1)) + 1 := by omega
        rw [hij, List.get?_cons_succ]
        exact hget
    · rintro ⟨hj, e', hget, hr⟩
      by_cases hij : i = j
      · subst hij
        rw [Nat.sub_self, List.get?_cons_zero] at hget
        obtain rfl : e = e' := by injection hget
        left
        rw [hr]
        exact List.mem_singleton.mpr rfl
      · right
        refine (ih (j + 1) i p).mpr ⟨by omega, e', ?_, hr⟩
        have hij' : i - j = (i - (j + 1)) + 1 := by omega
        rw [hij', List.get?_cons_succ] at hget
        exact hget

theorem renderAllAux_keys (render : Renderer) : ∀ (eqs : List Eqn) (j : Nat),
    (renderAllAux render eqs j).map Prod.fst =
      (List.range' j eqs.length).filter (okIdxFrom render eqs j) := by
  intro eqs
  induction eqs with
  | nil => intro j; simp [renderAllAux]
  | cons e rest ih =>
    intro j
    have hcong : (List.range' (j + 1) rest.length).filter (okIdxFrom render (e :: rest) j) =
        (List.range' (j + 1) rest.length).filter (okIdxFrom render rest (j + 1)) := by
      refine List.filter_congr fun i hi => ?_
      have hji : j + 1 ≤ i := (List.mem_range'_1.mp hi).1
      have hij : i - j = (i - (j + 1)) + 1 := by omega
      unfold okIdxFrom
      rw [hij, List.get?_cons_succ]
    simp only [renderAllAux, List.map_append, List.length_cons, List.range'_succ,
      List.filter_cons]
    have hj0 : okIdxFrom render (e :: rest) j j = (render e.latex (filenameFor j) e.kind).isSome := by
      unfold okIdxFrom
      rw [Nat.sub_self, List.get?_cons_zero]
    cases hr : render e.latex (filenameFor j) e.kind with
    | some q =>
      rw [hj0, hr]
      simp only [Option.isSome_some, if_true]
      rw [ih (j + 1), hcong]
      rfl
    | none =>
      rw [hj0, hr]
      simp only [Option.isSome_none, Bool.false_eq_true, if_false]
      rw [ih (j + 1), hcong]
      rfl

/-- C1: a failed render is swallowed — its index is simply absent from the
mapping — and every other successfully rendering equation still gets its
entry; for a 5-equation list failing exactly at index 2, the key list is
exactly `[0, 1, 3, 4]` (and `render_all` returns normally, being total). -/
theorem render_all_swallows_failure (render : Renderer) (eqs : List Eqn) (k : Nat)
    (hk : k < eqs.length) (hfail : okIdx render eqs k = false) :
    (∀ p, (k, p) ∉ renderAll render eqs) ∧
    (∀ i, i < eqs.length → okIdx render eqs i = true → ∃ p, (i, p) ∈ renderAll render eqs) ∧
    ((renderAll render eqs).map Prod.fst = (List.range' 0 eqs.length).filter (okIdx render eqs)) ∧
    (eqs.length = 5 → k = 2 → (∀ i, i < 5 → i ≠ 2 → okIdx render eqs i = true) →
      (renderAll render eqs).map Prod.fst = [0, 1, 3, 4]) := by
  have hkeys : (renderAll render eqs).map Prod.fst =
      (List.range' 0 eqs.length).filter (okIdx render eqs) := by
    rw [renderAll, renderAllAux_keys]
    exact List.filter_congr fun i _ => rfl
  have hsome : ∀ i, okIdx render eqs i = true →
      ∃ p, (i, p) ∈ renderAll render eqs := by
    intro i hi
    unfold okIdx okIdxFrom at hi
    cases hget : eqs.get? (i - 0) with
    | none => rw [hget] at hi; cases hi
    | some e =>
      simp only [hget] at hi
      cases hr : render e.latex (filenameFor i) e.kind with
      | none => simp [hr] at hi
      | some p =>
        exact ⟨p, (renderAllAux_mem render eqs 0 i p).mpr ⟨Nat.zero_le i, e, hget, hr⟩⟩
  refine ⟨?_, fun i _ hi => hsome i hi, hkeys, ?_⟩
  · intro p hmem
    obtain ⟨_, e, hget, hr⟩ := (renderAllAux_mem render eqs 0 k p).mp hmem
    unfold okIdx okIdxFrom at hfail
    simp only [hget, hr, Option.isSome_some] at hfail
    exact Bool.noConfusion hfail
  · intro h5 hk2 hsucc
    subst hk2
    have h0 : okIdx render eqs 0 = true := hsucc 0 (by omega) (by omega)
    have h1 : okIdx render eqs 1 = true := hsucc 1 (by omega) (by omega)
    have h3 : okIdx render eqs 3 = true := hsucc 3 (by omega) (by omega)
    have h4 : okIdx render eqs 4 = true := hsucc 4 (by omega) (by omega)
    rw [hkeys, h5]
    have hr5 : List.range' 0 5 = [0, 1, 2, 3, 4] := rfl
    rw [hr5]
    simp [List.filter_cons, h0, h1, hfail, h3, h4]

/-- Witness for C1: the theorem applied to a concrete 5-equation list whose
render fails exactly at index 2. -/
theorem render_all_swallows_failure_witness :
    (renderAll renderFailB eqsFive).map Prod.fst = [0, 1, 3, 4] := by
  exact (render_all_swallows_failure renderFailB eqsFive 2 (by decide)
    (by decide)).2.2.2 (by decide) rfl (by decide)

theorem natDigitsAux_len_le : ∀ (fuel n k : Nat), 1 ≤ k → n < 10 ^ k →
    (natDigitsAux fuel n).length ≤ k := by
  intro fuel
  induction fuel with
  | zero => intro n k _ _; simp [natDigitsAux]
  | succ f ih =>
    intro n k hk hn
    simp only [natDigitsAux]
    by_cases h10 : n < 10
    · rw [if_pos h10]; simpa using hk
    · rw [if_neg h10, List.length_append]
      have hk2 : 2 ≤ k := by
        by_contra hlt
        have hk1 : k = 1 := by omega
        rw [hk1, pow_one] at hn
        omega
      have hdiv : n / 10 < 10 ^ (k - 1) := by
        rw [Nat.div_lt_iff_lt_mul (by omega)]
        have hpow : 10 ^ (k - 1) * 10 = 10 ^ k := by
          rw [← pow_succ]
          congr 1
          omega
        rw [hpow]
        exact hn
      have := ih (n / 10) (k - 1) (by omega) hdiv
      simp only [List.length_singleton]
      omega

theorem pad3_length {i : Nat} (h : i < 1000) : (pad3 i).length = 3 := by
  have hle : (natDigits i).length ≤ 3 := by
    refine natDigitsAux_len_le _ i 3 (by omega) ?_
    norm_num
    omega
  unfold pad3
  rw [List.length_append, List.length_replicate]
  omega

/-- C9: the filename for index `i` is the zero-padded `equation_NNN.png`
(`NNN` three digits for every index below 1000) and depends on nothing but
`i`, so repeated runs use identical names; an index is absent from the
mapping exactly when its render failed. -/
theorem filenames_deterministic (render : Renderer) (eqs : List Eqn) :
    (∀ i p, (i, p) ∈ renderAll render eqs ↔
      ∃ e, eqs.get? i = some e ∧ render e.latex (filenameFor i) e.kind = some p) ∧
    (∀ i, i < 1000 → (pad3 i).length = 3) ∧
    filenameFor 7 = "equation_007.png".data ∧
    (∀ i, i < eqs.length → ((∀ p, (i, p) ∉ renderAll render eqs) ↔ okIdx render eqs i = false)) := by
  have hmem : ∀ i p, (i, p) ∈ renderAll render eqs ↔
      ∃ e, eqs.get? i = some e ∧ render e.latex (filenameFor i) e.kind = some p := by
    intro i p
    rw [renderAll, renderAllAux_mem]
    constructor
    · rintro ⟨_, e, hget, hr⟩; exact ⟨e, hget, hr⟩
    · rintro ⟨e, hget, hr⟩; exact ⟨Nat.zero_le i, e, hget, hr⟩
  refine ⟨hmem, fun i hi => pad3_length hi, by rfl, ?_⟩
  intro i _
  constructor
  · intro hall
    unfold okIdx okIdxFrom
    cases hget : eqs.get? (i - 0) with
    | none => simp [hget]
    | some e =>
      cases hr : render e.latex (filenameFor i) e.kind with
      | none => simp [hget, hr]
      | some p =>
        have : eqs.get? i = some e := by rw [← Nat.sub_zero i]; exact hget
        exact absurd ((hmem i p).mpr ⟨e, this, hr⟩) (hall p)
  · intro hno p hmem'
    obtain ⟨e, hget, hr⟩ := (hmem i p).mp hmem'
    unfold okIdx okIdxFrom at hno
    rw [Nat.sub_zero] at hno
    simp only [hget, hr, Option.isSome_some] at hno
    exact Bool.noConfusion hno

/-- Witness for C9: the theorem applied to the always-succeeding renderer and
the empty list, instantiated at indices 5 and 7. -/
theorem filenames_deterministic_witness :
    (pad3 5).length = 3 ∧ filenameFor 7 = "equation_007.png".data := by
  exact ⟨(filenames_deterministic okRender []).2.1 5 (by decide),
         (filenames_deterministic okRender []).2.2.1⟩

/-- C3 (the code evaluated at the failing input): on a document with two
equations where the render of equation 0 fails, the mapping holds only key 1,
the size guard `eq_index < len(equation_images)` passes at cursor 0, the
lookup of key 0 misses, and the whole pipeline aborts with a `KeyError`
instead of emitting slides. -/
theorem planSlides_keyerror_on_gap :
    planSlides (fun latex fname _ => if latex = "x".data then none else some fname)
      "## A\ntext here\n$x$ $y$".data = .error () ∧
    renderAll (fun latex fname _ => if latex = "x".data then none else some fname)
      (extractEquations "## A\ntext here\n$x$ $y$".data) = [(1, "equation_001.png".data)] ∧
    lookupImg [(1, "equation_001.png".data)] 0 = none := by
  exact ⟨by rfl, by rfl, by rfl⟩

theorem splitOnNl_ne_nil : ∀ s : List Char, splitOnNl s ≠ [] := by
  intro s
  induction s with
  | nil => simp [splitOnNl]
  | cons c rest ih =>
    simp only [splitOnNl]
    by_cases hc : c = '\n'
    · rw [if_pos hc]; simp
    · rw [if_neg hc]
      cases hs : splitOnNl rest with
      | nil => simp
      | cons l ls => simp

theorem joinNl_splitOnNl : ∀ s : List Char, joinNl (splitOnNl s) = s := by
  intro s
  induction s with
  | nil => rfl
  | cons c rest ih =>
    simp only [splitOnNl]
    by_cases hc : c = '\n'
    · rw [if_pos hc]
      cases hs : splitOnNl rest with
      | nil => exact absurd hs (splitOnNl_ne_nil rest)
      | cons l ls =>
        rw [hs] at ih
        subst hc
        simp only [joinNl]
        simp [ih]
    · rw [if_neg hc]
      cases hs : splitOnNl rest with
      | nil => exact absurd hs (splitOnNl_ne_nil rest)
      | cons l ls =>
        rw [hs] at ih
        cases ls with
        | nil => simp only [joinNl] at ih ⊢; rw [ih]
        | cons m ms => simp only [joinNl, List.cons_append] at ih ⊢; rw [ih]

theorem pySlice_drop {a b : Nat} (doc : List Char) (hab : a ≤ b) :
    pySlice doc a b ++ doc.drop b = doc.drop a := by
  unfold pySlice
  have h1 : doc.drop b = (doc.drop a).drop (b - a) := by
    rw [List.drop_drop]
    congr 1
    omega
  rw [h1, List.take_append_drop]

theorem drop_prefix_slice {doc l r : List Char} {p : Nat} (h : doc.drop p = l ++ r) :
    pySlice doc p (p + l.length) = l := by
  unfold pySlice
  have hl : p + l.length - p = l.length := by omega
  rw [hl, h, List.take_left]

theorem drop_append_chunk {doc l r : List Char} {p : Nat} (h : doc.drop p = l ++ r) :
    doc.drop (p + l.length) = r := by
  have h1 : (doc.drop p).drop l.length = doc.drop (p + l.length) := List.drop_drop _ _ _
  rw [← h1, h, List.drop_left]

theorem h2Aux_recon : ∀ (lines : List (List Char)) (pos : Nat) (doc : List Char) (q : Nat),
    q ≤ pos → doc.drop pos = joinNl lines →
    reconAux doc (h2Aux lines pos) q = doc.drop q := by
  intro lines
  induction lines with
  | nil => intro pos doc q _ _; simp [h2Aux, reconAux]
  | cons l rest ih =>
    intro pos doc q hq hj
    by_cases hl : isH2Line l = true
    · have hAux : h2Aux (l :: rest) pos = (pos, l) :: h2Aux rest (pos + l.length + 1) := by
        simp [h2Aux, hl]
      rw [hAux]
      simp only [reconAux]
      cases rest with
      | nil =>
        have hjl : doc.drop pos = l ++ [] := by simpa [joinNl] using hj
        have hs1 : pySlice doc pos (pos + l.length) = l := drop_prefix_slice hjl
        have hrest : doc.drop (pos + l.length) = [] := drop_append_chunk hjl
        have hrec : reconAux doc (h2Aux [] (pos + l.length + 1)) (pos + l.length) =
            doc.drop (pos + l.length) := by simp [h2Aux, reconAux]
        have hassoc : l ++ doc.drop (pos + l.length) = doc.drop pos := by
          rw [hrest, List.append_nil]
          simpa [joinNl] using hj.symm
        rw [hs1, hrec, List.append_assoc, hassoc]
        exact pySlice_drop doc hq
      | cons m ms =>
        have hjl : doc.drop pos = l ++ ('\n' :: joinNl (m :: ms)) := by
          simpa [joinNl] using hj
        have hs1 : pySlice doc pos (pos + l.length) = l := drop_prefix_slice hjl
        have hrest : doc.drop (pos + l.length) = '\n' :: joinNl (m :: ms) :=
          drop_append_chunk hjl
        have hdrop2 : doc.drop (pos + l.length + 1) = joinNl (m :: ms) := by
          have h1 : (doc.drop (pos + l.length)).drop 1 = doc.drop (pos + l.length + 1) :=
            List.drop_drop 1 _ _
          rw [hrest] at h1
          simpa using h1.symm
        have hrec := ih (pos + l.length + 1) doc (pos + l.length) (by omega) hdrop2
        have hassoc : l ++ doc.drop (pos + l.length) = doc.drop pos := by
          rw [hrest]
          exact hjl.symm
        rw [hs1, hrec, List.append_assoc, hassoc]
        exact pySlice_drop doc hq
    · have hAux : h2Aux (l :: rest) pos = h2Aux rest (pos + l.length + 1) := by
        simp [h2Aux, hl]
      rw [hAux]
      cases rest with
      | nil => simp [h2Aux, reconAux]
      | cons m ms =>
        have hjl : doc.drop pos = l ++ ('\n' :: joinNl (m :: ms)) := by
          simpa [joinNl] using hj
        have hrest : doc.drop (pos + l.length) = '\n' :: joinNl (m :: ms) :=
          drop_append_chunk hjl
        have hdrop2 : doc.drop (pos + l.length + 1) = joinNl (m :: ms) := by
          have h1 : (doc.drop (pos + l.length)).drop 1 = doc.drop (pos + l.length + 1) :=
            List.drop_drop 1 _ _
          rw [hrest] at h1
          simpa using h1.symm
        exact ih (pos + l.length + 1) doc q (by omega) hdrop2

theorem sectionsAux_contents : ∀ (ms : List (Nat × List Char)) (len : Nat) (doc : List Char),
    (sectionsAux doc ms len).map Section.content =
      (bodyBoundsAux ms len).map fun b => pyStrip (pySlice doc b.1 b.2) := by
  intro ms
  induction ms with
  | nil => intro len doc; rfl
  | cons a rest ih =>
    intro len doc
    obtain ⟨p, l⟩ := a
    simp only [sectionsAux, bodyBoundsAux, List.map_cons]
    rw [ih]

/-- C5: the preamble before the first `##` heading, the heading lines, and the
raw body spans that `extract_sections` slices reassemble the document exactly
(no gap, no overlap), and each returned section body is the whitespace-trimmed
content of its raw span. -/
theorem sections_partition :
    (∀ doc : List Char, reconAux doc (h2Matches doc) 0 = doc) ∧
    (∀ doc : List Char, (extractSections doc).map Section.content =
      (bodyBounds doc).map fun b => pyStrip (pySlice doc b.1 b.2)) := by
  constructor
  · intro doc
    have h := h2Aux_recon (splitOnNl doc) 0 doc 0 (Nat.le_refl 0)
      (by rw [List.drop_zero, joinNl_splitOnNl])
    rw [h2Matches, h, List.drop_zero]
  · intro doc
    exact sectionsAux_contents (h2Matches doc) doc.length doc

theorem h2Aux_snd : ∀ (lines : List (List Char)) (pos : Nat),
    (h2Aux lines pos).map Prod.snd = lines.filter isH2Line := by
  intro lines
  induction lines with
  | nil => intro pos; rfl
  | cons l rest ih =>
    intro pos
    simp only [h2Aux, List.filter_cons]
    cases hl : isH2Line l with
    | true => simp [ih]
    | false => simp [ih]

theorem sectionsAux_titles : ∀ (ms : List (Nat × List Char)) (len : Nat) (doc : List Char),
    (sectionsAux doc ms len).map Section.title =
      ms.map fun pl => pyStrip (pl.2.drop 3) := by
  intro ms
  induction ms with
  | nil => intro len doc; rfl
  | cons a rest ih =>
    intro len doc
    obtain ⟨p, l⟩ := a
    simp only [sectionsAux, List.map_cons]
    rw [ih]

theorem bodyBoundsAux_adjacent : ∀ (ms : List (Nat × List Char)) (len i p q : Nat)
    (l m : List Char), ms.get? i = some (p, l) → ms.get? (i + 1) = some (q, m) →
    (bodyBoundsAux ms len).get? i = some (p + l.length, q) := by
  intro ms
  induction ms with
  | nil => intro len i p q l m h _; cases h
  | cons a rest ih =>
    intro len i p q l m h1 h2
    cases i with
    | zero =>
      rw [List.get?_cons_zero] at h1
      obtain rfl : a = (p, l) := Option.some.inj h1
      rw [List.get?_cons_succ] at h2
      cases rest with
      | nil => cases h2
      | cons b rbs =>
        rw [List.get?_cons_zero] at h2
        obtain rfl : b = (q, m) := Option.some.inj h2
        rfl
    | succ n =>
      rw [List.get?_cons_succ] at h1 h2
      obtain ⟨a1, a2⟩ := a
      simp only [bodyBoundsAux, List.get?_cons_succ]
      exact ih len n p q l m h1 h2

theorem bodyBoundsAux_last : ∀ (ms : List (Nat × List Char)) (len i p : Nat) (l : List Char),
    ms.get? i = some (p, l) → ms.get? (i + 1) = none →
    (bodyBoundsAux ms len).get? i = some (p + l.length, len) := by
  intro ms
  induction ms with
  | nil => intro len i p l h _; cases h
  | cons a rest ih =>
    intro len i p l h1 h2
    cases i with
    | zero =>
      rw [List.get?_cons_zero] at h1
      obtain rfl : a = (p, l) := Option.some.inj h1
      rw [List.get?_cons_succ] at h2
      cases rest with
      | nil => rfl
      | cons b rbs => rw [List.get?_cons_zero] at h2; cases h2
    | succ n =>
      rw [List.get?_cons_succ] at h1 h2
      obtain ⟨a1, a2⟩ := a
      simp only [bodyBoundsAux, List.get?_cons_succ]
      exact ih len n p l h1 h2

/-- C4 (amended): sections appear in heading order with their stripped heading
texts as titles; a section's body span runs from the end of its `##` heading
line to the start of the next `##` heading line — a top-level `#` heading does
not terminate it and stays inside the body — or to the end of the document for
the last section, the stored body being the whitespace-trimmed span. -/
theorem section_boundaries_h2_only :
    (∀ doc : List Char, (extractSections doc).map Section.title =
      ((splitOnNl doc).filter isH2Line).map fun l => pyStrip (l.drop 3)) ∧
    (∀ (doc : List Char) (i p q : Nat) (l m : List Char),
      (h2Matches doc).get? i = some (p, l) → (h2Matches doc).get? (i + 1) = some (q, m) →
      (bodyBounds doc).get? i = some (p + l.length, q)) ∧
    (∀ (doc : List Char) (i p : Nat) (l : List Char),
      (h2Matches doc).get? i = some (p, l) → (h2Matches doc).get? (i + 1) = none →
      (bodyBounds doc).get? i = some (p + l.length, doc.length)) ∧
    extractSections "## A\nbody\n# Top\nmore\n## B\nb2".data =
      [{ title := "A".data, content := "body\n# Top\nmore".data },
       { title := "B".data, content := "b2".data }] := by
  refine ⟨?_, ?_, ?_, by rfl⟩
  · intro doc
    rw [extractSections, sectionsAux_titles, h2Matches, ← h2Aux_snd (splitOnNl doc) 0,
      List.map_map]
    rfl
  · intro doc i p q l m h1 h2
    exact bodyBoundsAux_adjacent (h2Matches doc) doc.length i p q l m h1 h2
  · intro doc i p l h1 h2
    exact bodyBoundsAux_last (h2Matches doc) doc.length i p l h1 h2

/-- Witness for C4's amended theorem: applied to the concrete two-section
document, giving the first section's body bounds from the heading matches. -/
theorem section_boundaries_h2_only_witness :
    (bodyBounds "## A\nbody\n# Top\nmore\n## B\nb2".data).get? 0 = some (4, 21) := by
  exact section_boundaries_h2_only.2.1 "## A\nbody\n# Top\nmore\n## B\nb2".data 0 0 21
    "## A".data "## B".data (by rfl) (by rfl)

/-- C4 (counterexample): with a top-level `#` heading inside a section, the
source keeps it in the body — the body is neither the text cut at the `#`
heading nor its untrimmed variant, contradicting the claim's boundary rule. -/
theorem section_boundary_counterexample :
    extractSections "## A\nbody\n# Top\nmore".data =
      [{ title := "A".data, content := "body\n# Top\nmore".data }] ∧
    "body\n# Top\nmore".data ≠ "body".data ∧
    "body\n# Top\nmore".data ≠ "\nbody\n".data := by
  exact ⟨by rfl, by decide, by decide⟩

theorem collectLoopE_consumes (located : Int) (m : List (Nat × ImgPath))
    (H : ∀ j, lookupImg m j = (m.map Prod.snd).get? j) :
    ∀ (eqs : List Eqn) (cursor : Nat) (acc : List ImgPath), acc.length < 3 →
    collectLoopE located m eqs cursor acc =
      .ok (acc ++ ((m.map Prod.snd).drop cursor).take
            (min (eqs.countP (passesLoc located)) (min (3 - acc.length) (m.length - cursor))),
        cursor + min (eqs.countP (passesLoc located)) (min (3 - acc.length) (m.length - cursor))) := by
  intro eqs
  induction eqs with
  | nil =>
    intro cursor acc _
    simp [collectLoopE]
  | cons e rest ih =>
    intro cursor acc halen
    simp only [collectLoopE]
    by_cases hp : passesLoc located e = true
    · rw [if_pos hp]
      have hcount : (e :: rest).countP (passesLoc located) =
          rest.countP (passesLoc located) + 1 := by
        simp [List.countP_cons, hp]
      by_cases hc : cursor < m.length
      · rw [if_pos hc]
        have hclen : cursor < (m.map Prod.snd).length := by simpa using hc
        have hv : (m.map Prod.snd).get? cursor =
            some ((m.map Prod.snd).get ⟨cursor, hclen⟩) := List.get?_eq_get hclen
        have hlook : lookupImg m cursor = some ((m.map Prod.snd).get ⟨cursor, hclen⟩) := by
          rw [H cursor, hv]
        have hdropc : (m.map Prod.snd).drop cursor =
            (m.map Prod.snd).get ⟨cursor, hclen⟩ :: (m.map Prod.snd).drop (cursor + 1) :=
          List.drop_eq_get_cons hclen
        simp only [hlook]
        simp only [List.length_append, List.length_singleton]
        by_cases h3 : 3 ≤ acc.length + 1
        · rw [if_pos h3]
          have hk : min ((e :: rest).countP (passesLoc located))
              (min (3 - acc.length) (m.length - cursor)) = 1 := by
            rw [hcount]; omega
          rw [hk, hdropc]
          simp
        · rw [if_neg h3]
          rw [ih (cursor + 1) (acc ++ [(m.map Prod.snd).get ⟨cursor, hclen⟩]) (by simp; omega)]
          simp only [List.length_append, List.length_singleton]
          have hk : min ((e :: rest).countP (passesLoc located))
              (min (3 - acc.length) (m.length - cursor)) =
              min (rest.countP (passesLoc located))
                (min (3 - (acc.length + 1)) (m.length - (cursor + 1))) + 1 := by
            rw [hcount]; omega
          rw [hk, hdropc]
          simp only [List.take_succ_cons, Except.ok.injEq, Prod.mk.injEq]
          constructor
          · simp
          · omega
      · rw [if_neg hc, if_neg (show ¬ 3 ≤ acc.length by omega)]
        rw [ih cursor acc halen]
        have h0 : m.length - cursor = 0 := by omega
        have hk1 : min (rest.countP (passesLoc located))
            (min (3 - acc.length) (m.length - cursor)) = 0 := by rw [h0]; omega
        have hk2 : min ((e :: rest).countP (passesLoc located))
            (min (3 - acc.length) (m.length - cursor)) = 0 := by rw [h0]; omega
        rw [hk1, hk2]
    · rw [if_neg hp]
      rw [ih cursor acc halen]
      have hcount : (e :: rest).countP (passesLoc located) =
          rest.countP (passesLoc located) := by
        simp [List.countP_cons, hp]
      rw [hcount]

theorem sectionLoop_content_limits : ∀ (secs : List Section) (doc : List Char) (eqs : List Eqn)
    (m : List (Nat × ImgPath)) (cursor : Nat) (slides : List Slide),
    sectionLoop doc eqs m secs cursor = .ok slides →
    ∀ t bs imgs, Slide.contentSlide t bs imgs ∈ slides → bs.length ≤ 5 ∧ imgs.length ≤ 2 := by
  intro secs
  induction secs with
  | nil =>
    intro doc eqs m cursor slides h t bs imgs hmem
    simp only [sectionLoop] at h
    injection h with h
    subst h
    cases hmem
  | cons s rest ih =>
    intro doc eqs m cursor slides h t bs imgs hmem
    simp only [sectionLoop] at h
    cases hcol : collectLoopE (pyFind doc (s.content.take 100)) m eqs cursor [] with
    | error e =>
      simp only [hcol] at h
      exact Except.noConfusion h
    | ok pr =>
      obtain ⟨se, cursor'⟩ := pr
      simp only [hcol] at h
      cases hrec : sectionLoop doc eqs m rest cursor' with
      | error e =>
        simp only [hrec] at h
        exact Except.noConfusion h
      | ok slides' =>
        simp only [hrec] at h
        injection h with h
        subst h
        rcases List.mem_append.mp hmem with hmem1 | hmem2
        · rcases List.mem_append.mp hmem1 with hhead | hmid
          · rw [List.mem_singleton] at hhead
            exact Slide.noConfusion hhead
          · by_cases hne : deriveBullets s.content ≠ [] || se ≠ []
            · rw [if_pos hne, List.mem_singleton] at hmid
              injection hmid with ht hbs himgs
              subst hbs
              subst himgs
              exact ⟨List.length_take_le 5 _, List.length_take_le 2 _⟩
            · rw [if_neg hne] at hmid
              cases hmid
        · exact ih doc eqs m cursor' slides' hrec t bs imgs hmem2

/-- C2 (amended): when a section is processed, each extracted equation whose
offset exceeds the located first-100-characters offset consumes one image from
the single running cursor shared across sections — the image at the current
cursor key, which may have been rendered for an earlier equation whose own
offset does not exceed the located offset. Images are consumed consecutively
(each by at most one section, in mapping order), at most 3 per section, and an
emitted content slide carries at most the first 2 of them (and 5 bullets). -/
theorem layout_shared_cursor :
    (∀ (located : Int) (m : List (Nat × ImgPath)),
      (∀ j, lookupImg m j = (m.map Prod.snd).get? j) →
      ∀ (eqs : List Eqn) (cursor : Nat),
      collectLoopE located m eqs cursor [] =
        .ok (((m.map Prod.snd).drop cursor).take
              (min (eqs.countP (passesLoc located)) (min 3 (m.length - cursor))),
          cursor + min (eqs.countP (passesLoc located)) (min 3 (m.length - cursor)))) ∧
    (∀ (doc : List Char) (eqs : List Eqn) (m : List (Nat × ImgPath)) (secs : List Section)
      (cursor : Nat) (slides : List Slide), sectionLoop doc eqs m secs cursor = .ok slides →
      ∀ t bs imgs, Slide.contentSlide t bs imgs ∈ slides →
        bs.length ≤ 5 ∧ imgs.length ≤ 2) := by
  constructor
  · intro located m H eqs cursor
    have h := collectLoopE_consumes located m H eqs cursor [] (by simp)
    simpa using h
  · intro doc eqs m secs cursor slides h t bs imgs hmem
    exact sectionLoop_content_limits secs doc eqs m cursor slides h t bs imgs hmem

/-- Witness for C2's amended theorem: one equation past the located offset and
a one-entry total mapping; the loop consumes exactly the image at cursor 0. -/
theorem layout_shared_cursor_witness :
    collectLoopE 0 [(0, "p".data)]
      [{ kind := EqKind.inline, latex := "e".data, position := 1 }] 0 [] =
      .ok (["p".data], 1) := by
  have h := layout_shared_cursor.1 0 [(0, "p".data)]
    (by intro j; cases j with | zero => rfl | succ n => rfl)
    [{ kind := EqKind.inline, latex := "e".data, position := 1 }] 0
  exact h.trans (by rfl)

/-- C2 (counterexample): on `## A\n$x$ text\n## B\n$y$` with every render
succeeding, section A's located offset is 5 and the only equation with a
greater offset is equation 1 (offset 19); yet the image the section receives
is `equation_000.png` — the image of equation 0, whose offset 5 is not
greater than the located offset 5, refuting "associates only rendered
equations whose recorded offset is numerically greater than that offset". -/
theorem layout_association_counterexample :
    planSlides okRender "## A\n$x$ text\n## B\n$y$".data =
      .ok [Slide.titleSlide "Untitled".data,
           Slide.sectionHeader "A".data,
           Slide.contentSlide "A".data [] ["equation_000.png".data],
           Slide.sectionHeader "B".data] ∧
    extractSections "## A\n$x$ text\n## B\n$y$".data =
      [{ title := "A".data, content := "$x$ text".data },
       { title := "B".data, content := "$y$".data }] ∧
    (extractEquations "## A\n$x$ text\n## B\n$y$".data).map Eqn.position = [5, 19] ∧
    filenameFor 0 = "equation_000.png".data ∧
    pyFind "## A\n$x$ text\n## B\n$y$".data ("$x$ text".data.take 100) = 5 ∧
    ¬ ((5 : Int) > 5) := by
  exact ⟨by rfl, by rfl, by rfl, by rfl, by rfl, by decide⟩
